import Mathlib

/-!
Shallow embedding of the `localdate` Go package (`localdate.go`): a calendar
date stored as a signed 32-bit count of days since the Unix epoch together
with a validity flag, with infinity sentinels at the two extremes of the
int32 range.  Machine integers are modelled as `Int` with explicit
wrap-around (`toInt32`).  The Go standard library `time` package is a
collaborator of this repository (not part of its source); its proleptic
Gregorian calendar conversions are modelled extensionally by
`daysFromCivil` / `civilFromDays`, proved below (`civil_inv`) to be mutually
inverse with valid output, which characterises the civil calendar decode
uniquely.
-/

namespace GoDate

/-- Wrap-around conversion of an unbounded integer into the int32 domain,
modelling Go's `int32(x)` conversion (two's-complement truncation). -/
def toInt32 (x : Int) : Int := (x + 2147483648) % 4294967296 - 2147483648

/-- The Go constant `daysInfinity = math.MaxInt32`: the positive-infinity
sentinel day count. -/
def daysInfinity : Int := 2147483647

/-- The Go constant `daysNegInfinity = math.MinInt32`: the negative-infinity
sentinel day count. -/
def daysNegInfinity : Int := -2147483648

/-- Membership in the int32 domain. -/
def inRange32 (x : Int) : Prop := -2147483648 ≤ x ∧ x ≤ 2147483647

instance (x : Int) : Decidable (inRange32 x) := by unfold inRange32; infer_instance

/-- The `LocalDate` struct of `localdate.go`: `Days` is the int32 epoch-day
count and `Valid` the SQL-null flag. -/
structure LocalDate where
  Days : Int
  Valid : Bool
deriving DecidableEq

/-- Leap-year rule of the proleptic Gregorian calendar, as implemented by
`isLeap` in Go's `time` package (equality with 0 is unaffected by the
difference between Go's truncated and Lean's Euclidean remainder). -/
def isLeap (y : Int) : Bool := y % 4 == 0 && (y % 100 != 0 || y % 400 == 0)

/-- Days in a month (`daysIn` in Go's `time` package). -/
def daysInMonth (y m : Int) : Int :=
  if m = 2 then (if isLeap y then 29 else 28)
  else if m = 4 ∨ m = 6 ∨ m = 9 ∨ m = 11 then 30 else 31

/-- Shift of the civil year to a March-based year (so the leap day is the
last day of the shifted year): January and February count with the previous
year. -/
def yadj (y m : Int) : Int := if m ≤ 2 then y - 1 else y

/-- March-based month index in 0..11 of a civil month in 1..12
(March is 0, February is 11). -/
def mpOfMonth (m : Int) : Int := if m ≤ 2 then m + 9 else m - 3

/-- Epoch-day number of a civil (year, month, day) triple with the month
already in 1..12 (the day may be out of range: Go adds `day - 1` days to the
first of the month).  Models the computation performed by
`time.Date(year, month, day, 0, 0, 0, 0, time.UTC).Unix() / 86400` via the
standard civil-days formula: 400-year eras of 146097 days, with day 0 =
1970-01-01 (era day 719468). -/
def daysFromCivil (y m d : Int) : Int :=
  yadj y m / 400 * 146097 + yadj y m % 400 * 365 + yadj y m % 400 / 4 -
    yadj y m % 400 / 100 + (153 * mpOfMonth m + 2) / 5 + d - 1 - 719468

/-- Day of era (0..146096) of an epoch-day number. -/
def doeOf (z : Int) : Nat := ((z + 719468) % 146097).toNat

/-- Era (400-year block) of an epoch-day number. -/
def eraOf (z : Int) : Int := (z + 719468) / 146097

/-- First day of era of the March-based year-of-era `k`. -/
def dstartN (k : Nat) : Nat := 365 * k + k / 4 - k / 100

/-- 1 when the March-based year-of-era `k` has 366 days (its February, which
falls in civil year `k + 1` of the era, is a leap February), else 0. -/
def leapBit (k : Nat) : Nat :=
  if ((k + 1) % 4 = 0 ∧ (k + 1) % 100 ≠ 0) ∨ k = 399 then 1 else 0

/-- March-based year-of-era (0..399) containing day-of-era `doe`: the
estimate `doe / 365` overshoots by at most one and is corrected downward
when its year starts after `doe` (or falls outside the era). -/
def yoeFromDoe (doe : Nat) : Nat :=
  if doe / 365 ≤ 399 ∧ dstartN (doe / 365) ≤ doe then doe / 365 else doe / 365 - 1

/-- Day within the March-based year (0-based). -/
def doyOf (doe : Nat) : Nat := doe - dstartN (yoeFromDoe doe)

/-- March-based month index (0..11) of a day of the March-based year. -/
def mpOf (doy : Nat) : Nat := (5 * doy + 2) / 153

/-- Day of month (1-based) of a day of the March-based year. -/
def domOf (doy : Nat) : Nat := doy - (153 * mpOf doy + 2) / 5 + 1

/-- Civil month (1..12) of a day of the March-based year. -/
def monthOf (doy : Nat) : Nat := if mpOf doy < 10 then mpOf doy + 3 else mpOf doy - 9

/-- Civil (year, month, day) of an epoch-day number: models the calendar
decode performed by Go's `time.Time.Date()` on a UTC midnight instant.
`civil_inv` proves it is the exact inverse of `daysFromCivil` and always
yields a proper calendar date, which pins it to the proleptic Gregorian
decode that Go implements. -/
def civilFromDays (z : Int) : Int × Int × Int :=
  (eraOf z * 400 + (yoeFromDoe (doeOf z) : Int) +
      (if monthOf (doyOf (doeOf z)) ≤ 2 then 1 else 0),
    (monthOf (doyOf (doeOf z)) : Int), (domOf (doyOf (doeOf z)) : Int))

/-- Month normalisation performed by Go's `time.Date` (`norm(year, m, 12)`
on the 0-based month): the month is brought into 1..12 by floored division,
carrying into the year. -/
def normYM (y m : Int) : Int × Int := (y + (m - 1) / 12, (m - 1) % 12 + 1)

/-- The Go constructor `NewLocalDate(year, month, day)`: normalises the
triple as `time.Date` does, converts to epoch days, truncates to int32, and
marks the value valid. -/
def NewLocalDate (year month day : Int) : LocalDate :=
  ⟨toInt32 (daysFromCivil (normYM year month).1 (normYM year month).2 day), true⟩

/-- The Go constructor `InfinityDate()`. -/
def InfinityDate : LocalDate := ⟨daysInfinity, true⟩

/-- The Go constructor `NegInfinityDate()`. -/
def NegInfinityDate : LocalDate := ⟨daysNegInfinity, true⟩

/-- `LocalDate.IsInfinity`. -/
def IsInfinity (d : LocalDate) : Bool := d.Days == daysInfinity

/-- `LocalDate.IsNegInfinity`. -/
def IsNegInfinity (d : LocalDate) : Bool := d.Days == daysNegInfinity

/-- Unix seconds of Go's zero `time.Time{}` value, the instant
0001-01-01T00:00:00 UTC. -/
def zeroTimeUnix : Int := -62135596800

/-- `LocalDate.Time()`, modelled as the Unix seconds of the returned
instant: the zero instant when `IsInfinity`, otherwise
`time.Unix(Days * 86400, 0)`. -/
def Time (d : LocalDate) : Int := if IsInfinity d then zeroTimeUnix else d.Days * 86400

/-- `LocalDate.InfinityModifier()`. -/
def InfinityModifier (d : LocalDate) : Int :=
  if d.Days = daysInfinity then 1 else if d.Days = daysNegInfinity then -1 else 0

/-- Decimal digit character. -/
def digitChar (n : Nat) : Char := Char.ofNat (48 + n)

/-- Fuel-driven most-significant-first decimal digits accumulator. -/
def toDigitsAux : Nat → Nat → List Char → List Char
  | 0, _, acc => acc
  | f + 1, n, acc =>
    if n < 10 then digitChar n :: acc else toDigitsAux f (n / 10) (digitChar (n % 10) :: acc)

/-- Decimal digits of a natural number, most significant first. -/
def toDigits (n : Nat) : List Char := toDigitsAux (n + 1) n []

/-- Go's `appendInt` at width 4 (the `2006` year field of the layout):
numbers below 10000 are written as exactly four zero-padded digits, wider
numbers print all their digits. -/
def pad4 (n : Nat) : List Char :=
  if n < 10000 then
    [digitChar (n / 1000), digitChar (n / 100 % 10), digitChar (n / 10 % 10), digitChar (n % 10)]
  else toDigits n

/-- Go's `appendInt` at width 2 (the `01` month and `02` day fields). -/
def pad2 (n : Nat) : List Char :=
  if n < 100 then [digitChar (n / 10), digitChar (n % 10)] else toDigits n

/-- Signed year field written by Go's `Format("2006-01-02")`. -/
def fmtYear (x : Int) : List Char := if x < 0 then '-' :: pad4 (-x).toNat else pad4 x.toNat

/-- Signed two-digit field written by Go's `Format("2006-01-02")`. -/
def fmtTwo (x : Int) : List Char := if x < 0 then '-' :: pad2 (-x).toNat else pad2 x.toNat

/-- Go's `t.Format("2006-01-02")` applied to a civil triple. -/
def formatCivil (c : Int × Int × Int) : String :=
  ⟨fmtYear c.1 ++ '-' :: fmtTwo c.2.1 ++ '-' :: fmtTwo c.2.2⟩

/-- `LocalDate.MarshalJSON`, modelled at the level of the encoded text (the
generic JSON layer adds the surrounding quotes to each of the three
branches alike). -/
def MarshalJSON (d : LocalDate) : String :=
  if IsInfinity d then "infinity"
  else if IsNegInfinity d then "-infinity"
  else formatCivil (civilFromDays d.Days)

/-- Digit value of a character, as read by Go's `time.Parse` (`none` when
the character is not a decimal digit). -/
def digitVal (c : Char) : Option Nat := if c.isDigit then some (c.toNat - 48) else none

/-- Go's `getnum` with `fixed = true` at width 2: consumes exactly two
digits. -/
def getnum2 : List Char → Option (Nat × List Char)
  | c1 :: c2 :: rest =>
    match digitVal c1, digitVal c2 with
    | some a, some b => some (10 * a + b, rest)
    | _, _ => none
  | _ => none

/-- The `stdLongYear` field of Go's `time.Parse`: consumes exactly four
digits (a leading sign is rejected). -/
def getnum4 : List Char → Option (Nat × List Char)
  | c1 :: c2 :: c3 :: c4 :: rest =>
    match digitVal c1, digitVal c2, digitVal c3, digitVal c4 with
    | some a, some b, some c, some d => some (((10 * a + b) * 10 + c) * 10 + d, rest)
    | _, _, _, _ => none
  | _ => none

/-- Go's `time.Parse("2006-01-02", s)` on the character list of `s`:
sequentially consumes a four-digit year, a dash, a two-digit month, a dash
and a two-digit day, requires the input to end there, and then applies the
range checks `1 <= month <= 12` and `1 <= day <= daysIn(month, year)`.
`none` models the non-nil parse error. -/
def parseChars (l : List Char) : Option (Nat × Nat × Nat) :=
  match getnum4 l with
  | some (y, r1) =>
    match r1 with
    | d1 :: r2 =>
      if d1 = '-' then
        match getnum2 r2 with
        | some (m, r3) =>
          match r3 with
          | d2 :: r4 =>
            if d2 = '-' then
              match getnum2 r4 with
              | some (d, r5) =>
                if r5 = [] ∧ 1 ≤ m ∧ m ≤ 12 ∧ 1 ≤ d ∧ (d : Int) ≤ daysInMonth (y : Int) (m : Int)
                then some (y, m, d) else none
              | none => none
            else none
          | [] => none
        | none => none
      else none
    | [] => none
  | none => none

/-- String-level wrapper of `parseChars`. -/
def parseDate (s : String) : Option (Nat × Nat × Nat) := parseChars s.data

/-- Spec-side structural predicate: the strict 4-2-2 digit grouping
`DDDD-DD-DD` (exactly ten characters, digits in the year, month and day
positions, dashes at positions 5 and 8), stated by pattern rather than by
sequential consumption so that C8 compares two independent renderings. -/
def goodShape (l : List Char) : Bool :=
  match l with
  | [c1, c2, c3, c4, c5, c6, c7, c8, c9, c10] =>
    c1.isDigit && c2.isDigit && c3.isDigit && c4.isDigit && c5 == '-' &&
      c6.isDigit && c7.isDigit && c8 == '-' && c9.isDigit && c10.isDigit
  | _ => false

/-- Spec-side predicate: the calendar date named by a ten-character
`YYYY-MM-DD` string exists (month in 1..12, day within the leap-aware
length of that month). -/
def dateOk (l : List Char) : Bool :=
  match l with
  | [c1, c2, c3, c4, _, c6, c7, _, c9, c10] =>
    decide (1 ≤ 10 * (c6.toNat - 48) + (c7.toNat - 48) ∧
      10 * (c6.toNat - 48) + (c7.toNat - 48) ≤ 12 ∧
      1 ≤ 10 * (c9.toNat - 48) + (c10.toNat - 48) ∧
      ((10 * (c9.toNat - 48) + (c10.toNat - 48) : Nat) : Int) ≤
        daysInMonth
          ((((10 * (c1.toNat - 48) + (c2.toNat - 48)) * 10 + (c3.toNat - 48)) * 10 +
              (c4.toNat - 48) : Nat) : Int)
          ((10 * (c6.toNat - 48) + (c7.toNat - 48) : Nat) : Int))
  | _ => false

/-- The Go function `At(at string)`: strict parse then `NewLocalDate`;
`none` models the `(LocalDate{}, err)` error return carrying no date. -/
def At (s : String) : Option LocalDate :=
  (parseDate s).map fun t => NewLocalDate (t.1 : Int) (t.2.1 : Int) (t.2.2 : Int)

/-- `LocalDate.UnmarshalJSON` after the generic JSON layer has decoded the
byte payload to the string `s`: the method mutates the receiver `d`, so the
model maps the receiver and the string to the new receiver value (`none`
models the non-nil error, in which case Go leaves the receiver unchanged).
Note the two sentinel branches of the Go code assign only `d.Days` and
leave `d.Valid` as it was. -/
def UnmarshalJSON (d : LocalDate) (s : String) : Option LocalDate :=
  if s = "infinity" then some { d with Days := daysInfinity }
  else if s = "-infinity" then some { d with Days := daysNegInfinity }
  else (parseDate s).map fun t => NewLocalDate (t.1 : Int) (t.2.1 : Int) (t.2.2 : Int)

/-- Runtime value presented to `LocalDate.Scan`: a `time.Time` (represented
by the civil date that its `Year()`, `Month()`, `Day()` accessors yield), a
string, SQL NULL (`nil`), or a value of any other type. -/
inductive ScanValue where
  | timeVal (year month day : Int)
  | strVal (s : String)
  | nilVal
  | otherVal
deriving DecidableEq

/-- The two error kinds `Scan` can report: the `fmt.Errorf("unsupported
Scan, ...")` type error and the `time.Parse` error. -/
inductive ScanErr where
  | typeErr
  | parseErr
deriving DecidableEq

/-- `LocalDate.Scan(value)`: returns the receiver's new state (the Go
method mutates `*d` only on the paths that return a nil error) together
with the optional error. -/
def Scan (d : LocalDate) (v : ScanValue) : LocalDate × Option ScanErr :=
  match v with
  | .timeVal y m dd => (NewLocalDate y m dd, none)
  | .strVal s =>
    if s = "infinity" then ({ d with Days := daysInfinity }, none)
    else if s = "-infinity" then ({ d with Days := daysNegInfinity }, none)
    else
      match parseDate s with
      | some t => (NewLocalDate (t.1 : Int) (t.2.1 : Int) (t.2.2 : Int), none)
      | none => (d, some .parseErr)
  | .nilVal => (d, none)
  | .otherVal => (d, some .typeErr)

/-- A `driver.Value` produced by `LocalDate.Value`: a string or a
`time.Time` (represented by its Unix seconds). -/
inductive DriverValue where
  | strVal (s : String)
  | timeVal (unixSec : Int)
deriving DecidableEq

/-- `LocalDate.Value()` (never errors in the Go code). -/
def Value (d : LocalDate) : DriverValue :=
  if IsInfinity d then .strVal "infinity"
  else if IsNegInfinity d then .strVal "-infinity"
  else .timeVal (Time d)

/-- `IsEqual(a, b)`: Go struct equality `a == b` (both fields). -/
def IsEqual (a b : LocalDate) : Bool := decide (a = b)

/-- `IsAfter(a, b)`: `a.Days > b.Days`. -/
def IsAfter (a b : LocalDate) : Bool := decide (b.Days < a.Days)

/-- `IsBefore(a, b)`: `a.Days < b.Days`. -/
def IsBefore (a b : LocalDate) : Bool := decide (a.Days < b.Days)

/-- `AddDays(a, n)`: sentinels are returned unchanged; otherwise the day
count is shifted by `int32(n)` with wrapping 32-bit addition and the result
is marked valid. -/
def AddDays (a : LocalDate) (n : Int) : LocalDate :=
  if IsInfinity a || IsNegInfinity a then a
  else ⟨toInt32 (a.Days + toInt32 n), true⟩

/-- `LocalDate.AddDate(years, months, days)`: sentinels are returned
unchanged; otherwise the stored day count is decoded to a civil triple via
`t.Time().Date()` and each component offset is added before re-encoding
through `NewLocalDate` (which normalises like `time.Date`). -/
def AddDate (t : LocalDate) (years months days : Int) : LocalDate :=
  if IsInfinity t || IsNegInfinity t then t
  else
    NewLocalDate ((civilFromDays t.Days).1 + years) ((civilFromDays t.Days).2.1 + months)
      ((civilFromDays t.Days).2.2 + days)

/-- `IsBetween(needle, from, to)`: the inclusive range test over raw day
counts. -/
def IsBetween (needle lo hi : LocalDate) : Bool :=
  decide (lo.Days ≤ needle.Days ∧ needle.Days ≤ hi.Days)

/-! ### Calendar infrastructure lemmas -/

theorem leapBit_le (k : Nat) : leapBit k ≤ 1 := by
  unfold leapBit; split_ifs <;> omega

theorem yoe_bounds (doe : Nat) (h : doe ≤ 146096) :
    yoeFromDoe doe ≤ 399 ∧ dstartN (yoeFromDoe doe) ≤ doe ∧
    doe - dstartN (yoeFromDoe doe) ≤ 364 + leapBit (yoeFromDoe doe) := by
  unfold yoeFromDoe
  by_cases h1 : doe / 365 ≤ 399 ∧ dstartN (doe / 365) ≤ doe
  · rw [if_pos h1]
    refine ⟨h1.1, h1.2, ?_⟩
    have h2 := h1.2
    unfold dstartN leapBit at *
    split_ifs <;> omega
  · rw [if_neg h1]
    have hq1 : 1 ≤ doe / 365 := by
      by_contra hc
      exact h1 ⟨by omega, by unfold dstartN; omega⟩
    by_cases h2 : doe / 365 ≤ 399
    · have h3 : doe < dstartN (doe / 365) := by
        rcases Nat.lt_or_ge doe (dstartN (doe / 365)) with h' | h'
        · exact h'
        · exact absurd ⟨h2, h'⟩ h1
      have hb : dstartN (doe / 365) ≤ dstartN (doe / 365 - 1) + 365 + leapBit (doe / 365 - 1) := by
        have hrw : doe / 365 - 1 + 1 = doe / 365 := by omega
        unfold dstartN leapBit
        rw [hrw]
        split_ifs <;> omega
      have hlow : dstartN (doe / 365 - 1) ≤ doe := by
        unfold dstartN; omega
      exact ⟨by omega, hlow, by omega⟩
    · have h400 : doe / 365 = 400 := by omega
      rw [h400]
      have e1 : dstartN (400 - 1) = 145731 := by decide
      have e2 : leapBit (400 - 1) = 1 := by decide
      exact ⟨by omega, by omega, by omega⟩

theorem month_facts (doy : Nat) (h : doy ≤ 365) :
    mpOf doy ≤ 11 ∧ (153 * mpOf doy + 2) / 5 ≤ doy ∧
    (mpOf doy = 1 ∨ mpOf doy = 3 ∨ mpOf doy = 6 ∨ mpOf doy = 8 → domOf doy ≤ 30) ∧
    (mpOf doy ≠ 11 → domOf doy ≤ 31) ∧
    (mpOf doy = 11 → (153 * mpOf doy + 2) / 5 = 337) := by
  unfold mpOf domOf mpOf
  omega

theorem civil_inv (z : Int) :
    1 ≤ (civilFromDays z).2.1 ∧ (civilFromDays z).2.1 ≤ 12 ∧
    1 ≤ (civilFromDays z).2.2 ∧
    (civilFromDays z).2.2 ≤ daysInMonth (civilFromDays z).1 (civilFromDays z).2.1 ∧
    daysFromCivil (civilFromDays z).1 (civilFromDays z).2.1 (civilFromDays z).2.2 = z := by
  have hn : doeOf z ≤ 146096 := by unfold doeOf; omega
  obtain ⟨hy1, hy2, hy3⟩ := yoe_bounds (doeOf z) hn
  have hlb := leapBit_le (yoeFromDoe (doeOf z))
  have hdoy : doyOf (doeOf z) = doeOf z - dstartN (yoeFromDoe (doeOf z)) := rfl
  have hds : dstartN (yoeFromDoe (doeOf z)) =
      365 * yoeFromDoe (doeOf z) + yoeFromDoe (doeOf z) / 4 - yoeFromDoe (doeOf z) / 100 := rfl
  have hdoyle : doyOf (doeOf z) ≤ 365 := by omega
  obtain ⟨hm1, hm2, hm3, hm4, hm5⟩ := month_facts (doyOf (doeOf z)) hdoyle
  have hdom : domOf (doyOf (doeOf z)) =
      doyOf (doeOf z) - (153 * mpOf (doyOf (doeOf z)) + 2) / 5 + 1 := rfl
  have hz : z + 719468 = eraOf z * 146097 + (doeOf z : Int) := by unfold doeOf eraOf; omega
  dsimp only [civilFromDays]
  by_cases hmp : mpOf (doyOf (doeOf z)) < 10
  · have hmo : monthOf (doyOf (doeOf z)) = mpOf (doyOf (doeOf z)) + 3 := by
      unfold monthOf; rw [if_pos hmp]
    rw [hmo]
    have hifm : (if mpOf (doyOf (doeOf z)) + 3 ≤ 2 then (1 : Int) else 0) = 0 :=
      if_neg (by omega)
    rw [hifm]
    have hcast : ((mpOf (doyOf (doeOf z)) + 3 : Nat) : Int) - 3 = (mpOf (doyOf (doeOf z)) : Int) := by
      push_cast; ring
    refine ⟨by omega, by omega, by omega, ?_, ?_⟩
    · unfold daysInMonth
      split_ifs <;> omega
    · unfold daysFromCivil yadj mpOfMonth
      have hc2 : ¬((mpOf (doyOf (doeOf z)) + 3 : Nat) : Int) ≤ 2 := by omega
      rw [if_neg hc2, if_neg hc2, hcast]
      have hdiv400 : (eraOf z * 400 + (yoeFromDoe (doeOf z) : Int) + 0) / 400 = eraOf z := by
        omega
      have hmod400 : (eraOf z * 400 + (yoeFromDoe (doeOf z) : Int) + 0) % 400 =
          (yoeFromDoe (doeOf z) : Int) := by omega
      rw [hdiv400, hmod400]
      omega
  · have hmo : monthOf (doyOf (doeOf z)) = mpOf (doyOf (doeOf z)) - 9 := by
      unfold monthOf; rw [if_neg hmp]
    rw [hmo]
    have hifm : (if mpOf (doyOf (doeOf z)) - 9 ≤ 2 then (1 : Int) else 0) = 1 :=
      if_pos (by omega)
    rw [hifm]
    have hcast : ((mpOf (doyOf (doeOf z)) - 9 : Nat) : Int) + 9 = (mpOf (doyOf (doeOf z)) : Int) := by
      omega
    have hleap : leapBit (yoeFromDoe (doeOf z)) = 1 →
        isLeap (eraOf z * 400 + (yoeFromDoe (doeOf z) : Int) + 1) = true := by
      intro h1
      unfold leapBit at h1
      unfold isLeap
      simp only [Bool.and_eq_true, Bool.or_eq_true, beq_iff_eq, bne_iff_ne, ne_eq]
      split_ifs at h1 with hc
      all_goals omega
    refine ⟨by omega, by omega, by omega, ?_, ?_⟩
    · unfold daysInMonth
      split_ifs with hf1 hf2 <;> try omega
      · -- february, leap year of the decoded civil year
        by_cases hl : leapBit (yoeFromDoe (doeOf z)) = 1
        · exact absurd (hleap hl) (by simp_all)
        · omega
    · unfold daysFromCivil yadj mpOfMonth
      have hc2 : ((mpOf (doyOf (doeOf z)) - 9 : Nat) : Int) ≤ 2 := by omega
      rw [if_pos hc2, if_pos hc2, hcast]
      have hdiv400 : (eraOf z * 400 + (yoeFromDoe (doeOf z) : Int) + 1 - 1) / 400 = eraOf z := by
        omega
      have hmod400 : (eraOf z * 400 + (yoeFromDoe (doeOf z) : Int) + 1 - 1) % 400 =
          (yoeFromDoe (doeOf z) : Int) := by omega
      rw [hdiv400, hmod400]
      omega

theorem getnum2_eq (a b : Char) (r : List Char) :
    getnum2 (a :: b :: r) =
      if a.isDigit ∧ b.isDigit then some (10 * (a.toNat - 48) + (b.toNat - 48), r)
      else none := by
  unfold getnum2 digitVal
  by_cases h1 : a.isDigit <;> by_cases h2 : b.isDigit <;> simp [h1, h2]

theorem getnum4_eq (a b c d : Char) (r : List Char) :
    getnum4 (a :: b :: c :: d :: r) =
      if a.isDigit ∧ b.isDigit ∧ c.isDigit ∧ d.isDigit then
        some (((10 * (a.toNat - 48) + (b.toNat - 48)) * 10 + (c.toNat - 48)) * 10 +
          (d.toNat - 48), r)
      else none := by
  unfold getnum4 digitVal
  by_cases h1 : a.isDigit <;> by_cases h2 : b.isDigit <;> by_cases h3 : c.isDigit <;>
    by_cases h4 : d.isDigit <;> simp [h1, h2, h3, h4]

set_option maxRecDepth 8192 in
theorem parse_iff (l : List Char) : (parseChars l).isSome = (goodShape l && dateOk l) := by
  rcases l with _ | ⟨c1, l⟩
  · rfl
  rcases l with _ | ⟨c2, l⟩
  · rfl
  rcases l with _ | ⟨c3, l⟩
  · rfl
  rcases l with _ | ⟨c4, l⟩
  · rfl
  unfold parseChars
  rw [getnum4_eq]
  by_cases h1234 : c1.isDigit ∧ c2.isDigit ∧ c3.isDigit ∧ c4.isDigit
  case neg =>
    rw [if_neg h1234]
    simp only [not_and_or, Bool.not_eq_true] at h1234
    rcases l with _ | ⟨c5, l⟩
    · simp [goodShape]
    rcases l with _ | ⟨c6, l⟩
    · simp [goodShape]
    rcases l with _ | ⟨c7, l⟩
    · simp [goodShape]
    rcases l with _ | ⟨c8, l⟩
    · simp [goodShape]
    rcases l with _ | ⟨c9, l⟩
    · simp [goodShape]
    rcases l with _ | ⟨c10, l⟩
    · simp [goodShape]
    rcases l with _ | ⟨c11, l⟩
    · simp only [Option.isSome_none, goodShape]
      symm
      simp only [Bool.and_eq_false_iff, beq_eq_false_iff_ne, ne_eq]
      tauto
    · simp [goodShape]
  case pos =>
    rw [if_pos h1234]
    dsimp only
    rcases l with _ | ⟨c5, l⟩
    · simp [goodShape]
    dsimp only
    by_cases h5 : c5 = '-'
    case neg =>
      rw [if_neg h5]
      rcases l with _ | ⟨c6, l⟩
      · simp [goodShape]
      rcases l with _ | ⟨c7, l⟩
      · simp [goodShape]
      rcases l with _ | ⟨c8, l⟩
      · simp [goodShape]
      rcases l with _ | ⟨c9, l⟩
      · simp [goodShape]
      rcases l with _ | ⟨c10, l⟩
      · simp [goodShape]
      rcases l with _ | ⟨c11, l⟩
      · simp only [Option.isSome_none, goodShape]
        symm
        simp only [Bool.and_eq_false_iff, beq_eq_false_iff_ne, ne_eq]
        tauto
      · simp [goodShape]
    case pos =>
      subst h5
      rw [if_pos rfl]
      rcases l with _ | ⟨c6, l⟩
      · simp [goodShape, getnum2]
      rcases l with _ | ⟨c7, l⟩
      · simp [goodShape, getnum2]
      rw [getnum2_eq]
      by_cases h67 : c6.isDigit ∧ c7.isDigit
      case neg =>
        rw [if_neg h67]
        simp only [not_and_or, Bool.not_eq_true] at h67
        rcases l with _ | ⟨c8, l⟩
        · simp [goodShape]
        rcases l with _ | ⟨c9, l⟩
        · simp [goodShape]
        rcases l with _ | ⟨c10, l⟩
        · simp [goodShape]
        rcases l with _ | ⟨c11, l⟩
        · simp only [Option.isSome_none, goodShape]
          symm
          simp only [Bool.and_eq_false_iff, beq_eq_false_iff_ne, ne_eq]
          tauto
        · simp [goodShape]
      case pos =>
        rw [if_pos h67]
        dsimp only
        rcases l with _ | ⟨c8, l⟩
        · simp [goodShape]
        dsimp only
        by_cases h8 : c8 = '-'
        case neg =>
          rw [if_neg h8]
          rcases l with _ | ⟨c9, l⟩
          · simp [goodShape]
          rcases l with _ | ⟨c10, l⟩
          · simp [goodShape]
          rcases l with _ | ⟨c11, l⟩
          · simp only [Option.isSome_none, goodShape]
            symm
            simp only [Bool.and_eq_false_iff, beq_eq_false_iff_ne, ne_eq]
            tauto
          · simp [goodShape]
        case pos =>
          subst h8
          rw [if_pos rfl]
          rcases l with _ | ⟨c9, l⟩
          · simp [goodShape, getnum2]
          rcases l with _ | ⟨c10, l⟩
          · simp [goodShape, getnum2]
          rw [getnum2_eq]
          by_cases h90 : c9.isDigit ∧ c10.isDigit
          case neg =>
            rw [if_neg h90]
            simp only [not_and_or, Bool.not_eq_true] at h90
            rcases l with _ | ⟨c11, l⟩
            · simp only [Option.isSome_none, goodShape]
              symm
              simp only [Bool.and_eq_false_iff, beq_eq_false_iff_ne, ne_eq]
              tauto
            · simp [goodShape]
          case pos =>
            rw [if_pos h90]
            dsimp only
            rcases l with _ | ⟨c11, l⟩
            · simp only [goodShape, dateOk, h1234.1, h1234.2.1, h1234.2.2.1, h1234.2.2.2,
                h67.1, h67.2, h90.1, h90.2, Bool.true_and, Bool.and_true,
                beq_self_eq_true]
              split_ifs with hc
              · simp only [Option.isSome_some]
                symm
                rw [decide_eq_true_eq]
                exact ⟨hc.2.1, hc.2.2.1, hc.2.2.2.1, hc.2.2.2.2⟩
              · simp only [Option.isSome_none]
                symm
                rw [decide_eq_false_iff_not]
                intro hcon
                exact hc ⟨by trivial, hcon.1, hcon.2.1, hcon.2.2.1, hcon.2.2.2⟩
            · rw [if_neg fun h => (List.cons_ne_nil c11 l) h.1]
              rw [show goodShape
                  (c1 :: c2 :: c3 :: c4 :: '-' :: c6 :: c7 :: '-' :: c9 :: c10 :: c11 :: l) =
                    false from rfl]
              rfl
theorem daysInMonth_le31 (y m : Int) : daysInMonth y m ≤ 31 ∧ 28 ≤ daysInMonth y m := by
  unfold daysInMonth
  split_ifs <;> omega

theorem encode_bounds (y m d : Int) (h0 : 0 ≤ y) (h1 : y ≤ 9999) (h2 : 1 ≤ m) (h3 : m ≤ 12)
    (h4 : 1 ≤ d) (h5 : d ≤ 31) :
    -719528 ≤ daysFromCivil y m d ∧ daysFromCivil y m d ≤ 2932896 := by
  unfold daysFromCivil yadj mpOfMonth
  split_ifs <;> omega

theorem normYM_id (y m : Int) (h1 : 1 ≤ m) (h2 : m ≤ 12) : normYM y m = (y, m) := by
  unfold normYM
  simp only [Prod.mk.injEq]
  omega

theorem isDigit_digitChar (k : Nat) (h : k ≤ 9) : (digitChar k).isDigit = true := by
  interval_cases k <;> decide

theorem toNat_digitChar (k : Nat) (h : k ≤ 9) : (digitChar k).toNat = 48 + k := by
  interval_cases k <;> decide

theorem formatCivil_data (c : Int × Int × Int) (h0 : 0 ≤ c.1) (h1 : c.1 ≤ 9999)
    (h2 : 0 ≤ c.2.1) (h3 : c.2.1 ≤ 99) (h4 : 0 ≤ c.2.2) (h5 : c.2.2 ≤ 99) :
    (formatCivil c).data =
      [digitChar (c.1.toNat / 1000), digitChar (c.1.toNat / 100 % 10),
        digitChar (c.1.toNat / 10 % 10), digitChar (c.1.toNat % 10), '-',
        digitChar (c.2.1.toNat / 10), digitChar (c.2.1.toNat % 10), '-',
        digitChar (c.2.2.toNat / 10), digitChar (c.2.2.toNat % 10)] := by
  unfold formatCivil fmtYear fmtTwo pad4 pad2
  rw [if_neg (show ¬c.1 < 0 by omega)]
  rw [if_pos (show c.1.toNat < 10000 by omega)]
  rw [if_neg (show ¬c.2.1 < 0 by omega)]
  rw [if_pos (show c.2.1.toNat < 100 by omega)]
  rw [if_neg (show ¬c.2.2 < 0 by omega)]
  rw [if_pos (show c.2.2.toNat < 100 by omega)]
  rfl

theorem parse_digits (a1 a2 a3 a4 b1 b2 e1 e2 : Nat) (ha1 : a1 ≤ 9) (ha2 : a2 ≤ 9)
    (ha3 : a3 ≤ 9) (ha4 : a4 ≤ 9) (hb1 : b1 ≤ 9) (hb2 : b2 ≤ 9) (he1 : e1 ≤ 9) (he2 : e2 ≤ 9)
    (hm1 : 1 ≤ 10 * b1 + b2) (hm2 : 10 * b1 + b2 ≤ 12) (hd1 : 1 ≤ 10 * e1 + e2)
    (hd2 : ((10 * e1 + e2 : Nat) : Int) ≤
      daysInMonth ((((10 * a1 + a2) * 10 + a3) * 10 + a4 : Nat) : Int)
        ((10 * b1 + b2 : Nat) : Int)) :
    parseChars [digitChar a1, digitChar a2, digitChar a3, digitChar a4, '-', digitChar b1,
        digitChar b2, '-', digitChar e1, digitChar e2] =
      some (((10 * a1 + a2) * 10 + a3) * 10 + a4, 10 * b1 + b2, 10 * e1 + e2) := by
  unfold parseChars
  rw [getnum4_eq, if_pos ⟨isDigit_digitChar a1 ha1, isDigit_digitChar a2 ha2,
    isDigit_digitChar a3 ha3, isDigit_digitChar a4 ha4⟩]
  dsimp only
  rw [if_pos rfl]
  rw [getnum2_eq, if_pos ⟨isDigit_digitChar b1 hb1, isDigit_digitChar b2 hb2⟩]
  dsimp only
  rw [if_pos rfl]
  rw [getnum2_eq, if_pos ⟨isDigit_digitChar e1 he1, isDigit_digitChar e2 he2⟩]
  dsimp only
  rw [toNat_digitChar a1 ha1, toNat_digitChar a2 ha2, toNat_digitChar a3 ha3,
    toNat_digitChar a4 ha4, toNat_digitChar b1 hb1, toNat_digitChar b2 hb2,
    toNat_digitChar e1 he1, toNat_digitChar e2 he2]
  simp only [Nat.add_sub_cancel_left]
  rw [if_pos ⟨by trivial, hm1, hm2, hd1, hd2⟩]

theorem marshal_format (dd : Int) (h0 : 0 ≤ (civilFromDays dd).1)
    (h1 : (civilFromDays dd).1 ≤ 9999) :
    (-719528 ≤ dd ∧ dd ≤ 2932896) ∧
    MarshalJSON ⟨dd, true⟩ ≠ "infinity" ∧ MarshalJSON ⟨dd, true⟩ ≠ "-infinity" ∧
    parseDate (MarshalJSON ⟨dd, true⟩) =
      some ((civilFromDays dd).1.toNat, (civilFromDays dd).2.1.toNat,
        (civilFromDays dd).2.2.toNat) := by
  obtain ⟨hM1, hM2, hD1, hD4, henc⟩ := civil_inv dd
  have hdm31 := daysInMonth_le31 (civilFromDays dd).1 (civilFromDays dd).2.1
  have hD31 : (civilFromDays dd).2.2 ≤ 31 := le_trans hD4 hdm31.1
  have hbounds := encode_bounds (civilFromDays dd).1 (civilFromDays dd).2.1
    (civilFromDays dd).2.2 h0 h1 hM1 hM2 hD1 hD31
  rw [henc] at hbounds
  have hni : IsInfinity ⟨dd, true⟩ = false := by
    simp only [IsInfinity, daysInfinity, beq_eq_false_iff_ne, ne_eq]
    omega
  have hnni : IsNegInfinity ⟨dd, true⟩ = false := by
    simp only [IsNegInfinity, daysNegInfinity, beq_eq_false_iff_ne, ne_eq]
    omega
  have hmar : MarshalJSON ⟨dd, true⟩ = formatCivil (civilFromDays dd) := by
    simp [MarshalJSON, hni, hnni]
  have hdata := formatCivil_data (civilFromDays dd) h0 h1 (by omega) (by omega) (by omega)
    (by omega)
  refine ⟨hbounds, ?_, ?_, ?_⟩
  · rw [hmar]
    intro hcon
    have hdlist := congrArg String.data hcon
    rw [hdata] at hdlist
    have hlen := congrArg List.length hdlist
    rw [show ("infinity".data).length = 8 from rfl] at hlen
    simp at hlen
  · rw [hmar]
    intro hcon
    have hdlist := congrArg String.data hcon
    rw [hdata] at hdlist
    have hlen := congrArg List.length hdlist
    rw [show ("-infinity".data).length = 9 from rfl] at hlen
    simp at hlen
  · rw [hmar]
    unfold parseDate
    rw [hdata]
    have hYv : ((10 * ((civilFromDays dd).1.toNat / 1000) + (civilFromDays dd).1.toNat / 100 % 10) *
        10 + (civilFromDays dd).1.toNat / 10 % 10) * 10 + (civilFromDays dd).1.toNat % 10 =
        (civilFromDays dd).1.toNat := by omega
    have hMv : 10 * ((civilFromDays dd).2.1.toNat / 10) + (civilFromDays dd).2.1.toNat % 10 =
        (civilFromDays dd).2.1.toNat := by omega
    have hDv : 10 * ((civilFromDays dd).2.2.toNat / 10) + (civilFromDays dd).2.2.toNat % 10 =
        (civilFromDays dd).2.2.toNat := by omega
    have hd2p : ((10 * ((civilFromDays dd).2.2.toNat / 10) +
          (civilFromDays dd).2.2.toNat % 10 : Nat) : Int) ≤
        daysInMonth
          ((((10 * ((civilFromDays dd).1.toNat / 1000) + (civilFromDays dd).1.toNat / 100 % 10) *
              10 + (civilFromDays dd).1.toNat / 10 % 10) * 10 +
              (civilFromDays dd).1.toNat % 10 : Nat) : Int)
          ((10 * ((civilFromDays dd).2.1.toNat / 10) +
              (civilFromDays dd).2.1.toNat % 10 : Nat) : Int) := by
      rw [hYv, hMv, hDv]
      rw [Int.toNat_of_nonneg (by omega), Int.toNat_of_nonneg (by omega),
        Int.toNat_of_nonneg (by omega)]
      exact hD4
    rw [parse_digits _ _ _ _ _ _ _ _ (by omega) (by omega) (by omega) (by omega) (by omega)
      (by omega) (by omega) (by omega) (by omega) (by omega) (by omega) hd2p]
    rw [hYv, hMv, hDv]

/-! ### Claim theorems -/

/-- C1 (code evaluated at the failing input): decoding the token
`"infinity"` (resp. `"-infinity"`) into a zero-valued receiver assigns only
the day count; the result keeps `Valid = false` and is therefore not equal
to `InfinityDate()` (resp. `NegInfinityDate()`), although the claim (and
spec) say the decode yields the sentinel constructor's value. -/
theorem unmarshal_token_keeps_receiver_valid_flag :
    UnmarshalJSON ⟨0, false⟩ "infinity" = some ⟨daysInfinity, false⟩ ∧
    (⟨daysInfinity, false⟩ : LocalDate) ≠ InfinityDate ∧
    UnmarshalJSON ⟨0, false⟩ "-infinity" = some ⟨daysNegInfinity, false⟩ ∧
    (⟨daysNegInfinity, false⟩ : LocalDate) ≠ NegInfinityDate := by
  refine ⟨rfl, by decide, rfl, by decide⟩

/-- C2 (counterexample): two values with the same day count but different
`Valid` flags satisfy none of `IsEqual`, `IsBefore`, `IsAfter`, so the
comparisons are not a trichotomy over all pairs of values and `IsEqual` is
not determined solely by the raw day-count encoding. -/
theorem ordering_no_trichotomy_across_valid :
    IsEqual ⟨0, true⟩ ⟨0, false⟩ = false ∧ IsBefore ⟨0, true⟩ ⟨0, false⟩ = false ∧
    IsAfter ⟨0, true⟩ ⟨0, false⟩ = false := by decide

/-- C2 (amended): restricted to pairs with the same `Valid` flag (in
particular any two valid values), exactly one of `IsEqual`, `IsBefore`,
`IsAfter` holds; over the int32 domain negative infinity is below and
positive infinity is above every other day count, and each sentinel
compares equal only to itself. -/
theorem ordering_trichotomy_same_valid : ∀ a b : LocalDate,
    (a.Valid = b.Valid →
      (IsEqual a b = true ∧ IsBefore a b = false ∧ IsAfter a b = false) ∨
      (IsEqual a b = false ∧ IsBefore a b = true ∧ IsAfter a b = false) ∨
      (IsEqual a b = false ∧ IsBefore a b = false ∧ IsAfter a b = true)) ∧
    (inRange32 b.Days → b.Days ≠ daysNegInfinity → IsBefore NegInfinityDate b = true) ∧
    (inRange32 b.Days → b.Days ≠ daysInfinity → IsAfter InfinityDate b = true) ∧
    (IsEqual InfinityDate b = true ↔ b = InfinityDate) ∧
    (IsEqual NegInfinityDate b = true ↔ b = NegInfinityDate) := by
  intro a b
  obtain ⟨da, va⟩ := a
  obtain ⟨db, vb⟩ := b
  unfold IsEqual IsBefore IsAfter NegInfinityDate InfinityDate inRange32 daysInfinity
    daysNegInfinity
  simp only [decide_eq_true_eq, decide_eq_false_iff_not, LocalDate.mk.injEq, not_lt, not_and]
  constructor
  · intro hv
    subst hv
    simp only [and_true]
    omega
  · refine ⟨by intro h1 h2; omega, by intro h1 h2; omega, ?_, ?_⟩
    · constructor
      · rintro ⟨h1, h2⟩; exact ⟨h1.symm, h2.symm⟩
      · rintro ⟨h1, h2⟩; exact ⟨h1.symm, h2.symm⟩
    · constructor
      · rintro ⟨h1, h2⟩; exact ⟨h1.symm, h2.symm⟩
      · rintro ⟨h1, h2⟩; exact ⟨h1.symm, h2.symm⟩

/-- C2 (witness): the amended theorem applied at two concrete valid
values. -/
theorem ordering_trichotomy_same_valid_witness :
    inRange32 (7 : Int) ∧ (7 : Int) ≠ daysNegInfinity ∧
    IsBefore NegInfinityDate ⟨7, true⟩ = true :=
  ⟨by decide, by decide,
    (ordering_trichotomy_same_valid ⟨5, true⟩ ⟨7, true⟩).2.1 (by decide) (by decide)⟩

/-- C4: `AddDays` absorbs both infinity sentinels for every shift; on any
other value it adds `int32(n)` to the day count with wrapping 32-bit
arithmetic and marks the result valid, which is plain addition whenever no
wrap occurs; concretely, 2023-05-15 plus 5 days is 2023-05-20. -/
theorem addDays_shifts_and_absorbs : ∀ (a : LocalDate) (n : Int),
    AddDays InfinityDate n = InfinityDate ∧
    AddDays NegInfinityDate n = NegInfinityDate ∧
    (a.Days ≠ daysInfinity → a.Days ≠ daysNegInfinity →
      AddDays a n = ⟨toInt32 (a.Days + toInt32 n), true⟩ ∧
      (inRange32 n → inRange32 (a.Days + n) →
        (AddDays a n).Days = a.Days + n ∧ (AddDays a n).Valid = true)) ∧
    AddDays (NewLocalDate 2023 5 15) 5 = NewLocalDate 2023 5 20 := by
  intro a n
  have hsent : ∀ h1 : a.Days ≠ daysInfinity, ∀ h2 : a.Days ≠ daysNegInfinity,
      AddDays a n = ⟨toInt32 (a.Days + toInt32 n), true⟩ := by
    intro h1 h2
    unfold AddDays IsInfinity IsNegInfinity
    have hb1 : (a.Days == daysInfinity) = false := by simp [h1]
    have hb2 : (a.Days == daysNegInfinity) = false := by simp [h2]
    rw [hb1, hb2]
    rfl
  refine ⟨rfl, rfl, fun h1 h2 => ⟨hsent h1 h2, fun hn hr => ?_⟩, by decide⟩
  rw [hsent h1 h2]
  unfold toInt32 inRange32 daysInfinity daysNegInfinity at *
  dsimp only
  constructor
  · omega
  · rfl

/-- C4 (witness): the theorem applied at a concrete finite date and
shift. -/
theorem addDays_shifts_and_absorbs_witness :
    inRange32 (5 : Int) ∧ (AddDays ⟨19492, true⟩ 5).Days = 19492 + 5 := by
  refine ⟨by decide, ?_⟩
  exact (((addDays_shifts_and_absorbs ⟨19492, true⟩ 5).2.2.1 (by decide) (by decide)).2
    (by decide) (by decide)).1

/-- C5: `AddDate` absorbs both infinity sentinels; on a finite date it
decodes the day count to a civil (year, month, day), adds the three offsets
componentwise and re-encodes through `NewLocalDate`, whose normalisation
carries month overflow into the year and day overflow into the following
months with leap-aware February handling; in particular 2020-02-29 plus one
year is 2021-03-01. -/
theorem addDate_calendar_arithmetic : ∀ (t : LocalDate) (ys ms ds : Int),
    AddDate InfinityDate ys ms ds = InfinityDate ∧
    AddDate NegInfinityDate ys ms ds = NegInfinityDate ∧
    (t.Days ≠ daysInfinity → t.Days ≠ daysNegInfinity →
      AddDate t ys ms ds =
        NewLocalDate ((civilFromDays t.Days).1 + ys) ((civilFromDays t.Days).2.1 + ms)
          ((civilFromDays t.Days).2.2 + ds)) ∧
    (∀ y m dd : Int, NewLocalDate y (m + 12) dd = NewLocalDate (y + 1) m dd) ∧
    NewLocalDate 2023 1 32 = NewLocalDate 2023 2 1 ∧
    NewLocalDate 2021 2 29 = NewLocalDate 2021 3 1 ∧
    NewLocalDate 2024 2 29 ≠ NewLocalDate 2024 3 1 ∧
    AddDate (NewLocalDate 2020 2 29) 1 0 0 = NewLocalDate 2021 3 1 := by
  intro t ys ms ds
  refine ⟨rfl, rfl, ?_, ?_, by decide, by decide, by decide, by decide⟩
  · intro h1 h2
    unfold AddDate IsInfinity IsNegInfinity
    have hb1 : (t.Days == daysInfinity) = false := by simp [h1]
    have hb2 : (t.Days == daysNegInfinity) = false := by simp [h2]
    rw [hb1, hb2]
    rfl
  · intro y m dd
    unfold NewLocalDate normYM
    rw [show y + (m + 12 - 1) / 12 = y + 1 + (m - 1) / 12 by omega,
      show (m + 12 - 1) % 12 + 1 = (m - 1) % 12 + 1 by omega]

/-- C5 (witness): the theorem applied at the concrete leap-day date. -/
theorem addDate_calendar_arithmetic_witness :
    (⟨18321, true⟩ : LocalDate).Days ≠ daysInfinity ∧
    AddDate ⟨18321, true⟩ 1 0 0 = NewLocalDate 2021 3 1 := by
  refine ⟨by decide, ?_⟩
  have h := (addDate_calendar_arithmetic ⟨18321, true⟩ 1 0 0).2.2.1 (by decide) (by decide)
  rw [h]
  decide

/-- C6: `IsBetween` is exactly the inclusive day-count range test; with the
inverted range (from positive infinity down to negative infinity) it is
false for every needle whatsoever, each sentinel is between itself and
itself, and a finite date is between the two sentinels. -/
theorem between_inclusive_range : ∀ needle lo hi : LocalDate,
    IsBetween needle lo hi = decide (lo.Days ≤ needle.Days ∧ needle.Days ≤ hi.Days) ∧
    IsBetween needle InfinityDate NegInfinityDate = false ∧
    IsBetween InfinityDate InfinityDate InfinityDate = true ∧
    IsBetween NegInfinityDate NegInfinityDate NegInfinityDate = true ∧
    IsBetween (NewLocalDate 2023 5 15) NegInfinityDate InfinityDate = true := by
  intro needle lo hi
  refine ⟨rfl, ?_, by decide, by decide, by decide⟩
  unfold IsBetween InfinityDate NegInfinityDate daysInfinity daysNegInfinity
  simp only [decide_eq_false_iff_not, not_and, not_le]
  intro h
  omega

/-- C7 (counterexample): `Time()` special-cases only positive infinity, so
on the negative-infinity sentinel it does not return the zero instant but
converts the sentinel like a finite day count (MinInt32 * 86400 Unix
seconds). -/
theorem time_neg_infinity_not_zero_instant :
    Time NegInfinityDate = -2147483648 * 86400 ∧ Time NegInfinityDate ≠ zeroTimeUnix := by
  decide

/-- C7 (amended): `Time()` returns the zero instant exactly for the
positive-infinity sentinel; every other value — the negative-infinity
sentinel included — is mapped to the UTC midnight instant of its stored day
count, day count times 86400 seconds since the Unix epoch. -/
theorem time_utc_midnight : ∀ d : LocalDate,
    (d.Days ≠ daysInfinity → Time d = d.Days * 86400) ∧ Time InfinityDate = zeroTimeUnix := by
  intro d
  constructor
  · intro h
    unfold Time IsInfinity
    have hb : (d.Days == daysInfinity) = false := by simp [h]
    rw [hb]
    rfl
  · rfl

/-- C7 (witness): the amended theorem applied at a concrete finite date. -/
theorem time_utc_midnight_witness :
    ((⟨19492, true⟩ : LocalDate).Days ≠ daysInfinity) ∧ Time ⟨19492, true⟩ = 19492 * 86400 :=
  ⟨by decide, (time_utc_midnight ⟨19492, true⟩).1 (by decide)⟩

/-- C9: `Scan` of an absent (nil) value succeeds and leaves the receiver
completely unchanged, `Valid` flag included; `Scan` of a value that is not
a time instant, a string or nil fails with the unsupported-type error and
also leaves the receiver unchanged. -/
theorem scan_nil_noop_other_type_error : ∀ d : LocalDate,
    Scan d .nilVal = (d, none) ∧ Scan d .otherVal = (d, some .typeErr) :=
  fun _ => ⟨rfl, rfl⟩

/-- C10 (counterexample): serializing the invalid zero value does produce
the epoch date: the text encoding is exactly "1970-01-01" and the
persistence write emits the 1970-01-01T00:00Z instant (Unix second 0),
contrary to the claim. -/
theorem invalid_zero_serializes_as_epoch :
    MarshalJSON ⟨0, false⟩ = "1970-01-01" ∧ Value ⟨0, false⟩ = .timeVal 0 := by
  constructor
  · decide
  · decide

/-- C10 (amended): the JSON text encoding and the persistence write ignore
the `Valid` flag entirely — a value with `Valid = false` serializes exactly
like the valid value with the same day count, so the invalid zero value
yields the 1970-01-01 date on both paths; only day counts, never validity,
determine these two encodings. -/
theorem serializers_ignore_valid : ∀ (days : Int) (v : Bool),
    MarshalJSON ⟨days, v⟩ = MarshalJSON ⟨days, true⟩ ∧
    Value ⟨days, v⟩ = Value ⟨days, true⟩ :=
  fun _ _ => ⟨rfl, rfl⟩

/-- C8: `At` (the strict parse) succeeds exactly on strings of the strict
4-2-2 digit `YYYY-MM-DD` shape that name an existing calendar date (month
in range and day within the leap-aware month length) — so out-of-range
components are rejected, never carried, unlike `NewLocalDate`; on failure
it returns the error alone, carrying no date; concretely "2023-02-29" is
rejected (2023 is not a leap year). -/
theorem parse_strict_no_normalization : ∀ s : String,
    ((At s).isSome = (goodShape s.data && dateOk s.data)) ∧
    ((goodShape s.data && dateOk s.data) = false → At s = none) ∧
    At "2023-02-29" = none := by
  intro s
  have h : (At s).isSome = (goodShape s.data && dateOk s.data) := by
    unfold At parseDate
    rw [Option.isSome_map']
    exact parse_iff s.data
  refine ⟨h, ?_, by decide⟩
  intro hb
  rw [hb] at h
  rcases hA : At s with _ | v
  · rfl
  · rw [hA] at h
    simp at h

/-- C8 (witness): the characterisation applied at a concrete malformed
string, discharging the failure hypothesis. -/
theorem parse_strict_no_normalization_witness :
    (goodShape "15/05/2023".data && dateOk "15/05/2023".data) = false ∧
    At "15/05/2023" = none :=
  ⟨by decide, (parse_strict_no_normalization "15/05/2023").2.1 (by decide)⟩

/-- C3 (counterexample): the finite valid date with day count 2932897
(10000-01-01) does not round-trip: its text encoding is the five-digit-year
string "10000-01-01", which the strict four-digit parse rejects, so both
decode paths fail instead of returning the date. -/
theorem roundtrip_fails_year_10000 :
    MarshalJSON ⟨2932897, true⟩ = "10000-01-01" ∧
    UnmarshalJSON ⟨0, true⟩ (MarshalJSON ⟨2932897, true⟩) = none ∧
    At (MarshalJSON ⟨2932897, true⟩) = none := by
  refine ⟨by decide, by decide, by decide⟩

/-- C3 (amended): for every finite valid date whose civil year lies in
0..9999 (so the year formats as exactly four digits), decoding the text
encoding yields the date back, both through `UnmarshalJSON` (for any
receiver) and through `At`. -/
theorem roundtrip_in_range (dd : Int) (r : LocalDate) (h0 : 0 ≤ (civilFromDays dd).1)
    (h1 : (civilFromDays dd).1 ≤ 9999) :
    UnmarshalJSON r (MarshalJSON ⟨dd, true⟩) = some ⟨dd, true⟩ ∧
    At (MarshalJSON ⟨dd, true⟩) = some ⟨dd, true⟩ := by
  obtain ⟨hbounds, hne1, hne2, hparse⟩ := marshal_format dd h0 h1
  obtain ⟨hM1, hM2, hD1, hD4, henc⟩ := civil_inv dd
  have hnew : NewLocalDate ((civilFromDays dd).1.toNat : Int)
      ((civilFromDays dd).2.1.toNat : Int) ((civilFromDays dd).2.2.toNat : Int) =
      ⟨dd, true⟩ := by
    rw [Int.toNat_of_nonneg (by omega), Int.toNat_of_nonneg (by omega),
      Int.toNat_of_nonneg (by omega)]
    unfold NewLocalDate
    rw [normYM_id _ _ hM1 hM2]
    dsimp only
    rw [henc]
    simp only [LocalDate.mk.injEq, and_true]
    unfold toInt32
    omega
  constructor
  · unfold UnmarshalJSON
    rw [if_neg hne1, if_neg hne2, hparse]
    dsimp only [Option.map]
    rw [hnew]
  · unfold At
    rw [hparse]
    dsimp only [Option.map]
    rw [hnew]

/-- C3 (witness): the amended round-trip applied at the concrete date
2023-05-15 (day count 19492) with an invalid zero receiver. -/
theorem roundtrip_in_range_witness :
    0 ≤ (civilFromDays 19492).1 ∧ (civilFromDays 19492).1 ≤ 9999 ∧
    UnmarshalJSON ⟨0, false⟩ (MarshalJSON ⟨19492, true⟩) = some ⟨19492, true⟩ :=
  ⟨by decide, by decide, (roundtrip_in_range 19492 ⟨0, false⟩ (by decide) (by decide)).1⟩

end GoDate
